import Mathlib

/-!
Shallow embedding of the dufs file server core (src/server.rs) on Unix
(`cfg!(windows)` is `false` throughout).  Paths, header values, file
contents and query strings are modelled as byte lists (`List Nat`, each
element < 256).  Filesystem state is an association list from byte paths
to nodes; I/O failure modes (unreadable metadata, broken symlinks) are
modelled as node variants.  Unicode lowercasing (`str::to_lowercase`) is
modelled by its ASCII restriction, which is the case the specification
commits to.
-/

deriving instance DecidableEq for Except

namespace Dufs

/-! ## Byte and hex utilities -/

/-- Value of an ASCII hex digit, as used by the percent decoder. -/
def hexVal (c : Nat) : Option Nat :=
  if 48 ≤ c ∧ c ≤ 57 then some (c - 48)
  else if 65 ≤ c ∧ c ≤ 70 then some (c - 55)
  else if 97 ≤ c ∧ c ≤ 102 then some (c - 87)
  else none

/-- `percent_encoding::percent_decode`: a `%` followed by two hex digits
decodes to a byte; a `%` not followed by two hex digits is passed through
verbatim and decoding continues at the next byte. -/
def percentDecode : List Nat → List Nat
  | [] => []
  | 37 :: a :: b :: t =>
    match hexVal a, hexVal b with
    | some ha, some hb => (ha * 16 + hb) :: percentDecode t
    | _, _ => 37 :: percentDecode (a :: b :: t)
  | 37 :: t => 37 :: percentDecode t
  | c :: t => c :: percentDecode t

/-- A UTF-8 continuation byte (`10xxxxxx`). -/
def isCont (c : Nat) : Bool := 128 ≤ c && c ≤ 191

/-- Second-byte constraint of a three-byte UTF-8 sequence (rejects
overlong encodings and surrogates, as `str::from_utf8` does). -/
def valid3 (b c d : Nat) : Bool :=
  isCont d &&
    (if b = 224 then 160 ≤ c && c ≤ 191
     else if b = 237 then 128 ≤ c && c ≤ 159
     else isCont c)

/-- Second-byte constraint of a four-byte UTF-8 sequence (rejects
overlong encodings and code points above U+10FFFF). -/
def valid4 (b c d e : Nat) : Bool :=
  isCont d && isCont e &&
    (if b = 240 then 144 ≤ c && c ≤ 191
     else if b = 244 then 128 ≤ c && c ≤ 143
     else isCont c)

/-- UTF-8 validity of a byte list, matching `std::str::from_utf8`. -/
def validUtf8 : List Nat → Bool
  | [] => true
  | b :: t =>
    if b < 128 then validUtf8 t
    else if 194 ≤ b ∧ b ≤ 223 then
      match t with
      | c :: t2 => isCont c && validUtf8 t2
      | [] => false
    else if 224 ≤ b ∧ b ≤ 239 then
      match t with
      | c :: d :: t3 => valid3 b c d && validUtf8 t3
      | _ => false
    else if 240 ≤ b ∧ b ≤ 244 then
      match t with
      | c :: d :: e :: t4 => valid4 b c d e && validUtf8 t4
      | _ => false
    else false

/-! ## Base64 (the `base64` crate's `decode`, standard alphabet) -/

/-- Value of a byte in the standard base64 alphabet. -/
def b64val (c : Nat) : Option Nat :=
  if 65 ≤ c ∧ c ≤ 90 then some (c - 65)
  else if 97 ≤ c ∧ c ≤ 122 then some (c - 71)
  else if 48 ≤ c ∧ c ≤ 57 then some (c + 4)
  else if c = 43 then some 62
  else if c = 47 then some 63
  else none

/-- Strip up to two trailing `=` padding bytes. -/
def b64strip (l : List Nat) : List Nat :=
  match l.reverse with
  | 61 :: 61 :: r => r.reverse
  | 61 :: r => r.reverse
  | _ => l

/-- Decode a padding-stripped base64 string.  Any byte outside the
alphabet is an error, as is a leftover length of 1; nonzero trailing
bits in the final symbol are an error (`InvalidLastSymbol`). -/
def b64decodeCore : List Nat → Except Unit (List Nat)
  | [] => .ok []
  | [_] => .error ()
  | [a, b] =>
    match b64val a, b64val b with
    | some va, some vb =>
      if vb % 16 = 0 then .ok [va * 4 + vb / 16] else .error ()
    | _, _ => .error ()
  | [a, b, c] =>
    match b64val a, b64val b, b64val c with
    | some va, some vb, some vc =>
      if vc % 4 = 0 then .ok [va * 4 + vb / 16, vb % 16 * 16 + vc / 4]
      else .error ()
    | _, _, _ => .error ()
  | a :: b :: c :: d :: rest =>
    match b64val a, b64val b, b64val c, b64val d with
    | some va, some vb, some vc, some vd =>
      match b64decodeCore rest with
      | .ok tail => .ok ([va * 4 + vb / 16, vb % 16 * 16 + vc / 4, vc % 4 * 64 + vd] ++ tail)
      | .error e => .error e
    | _, _, _, _ => .error ()

/-- `base64::decode`. -/
def b64decode (l : List Nat) : Except Unit (List Nat) :=
  b64decodeCore (b64strip l)

/-! ## Byte-list string operations -/

/-- Boolean prefix test on byte lists (`str::starts_with` and the prefix
half of `str::strip_prefix`). -/
def isPrefixB : List Nat → List Nat → Bool
  | [], _ => true
  | _ :: _, [] => false
  | a :: as, b :: bs => a == b && isPrefixB as bs

/-- `str::contains` for a byte-list needle (substring search). -/
def containsSeq (n : List Nat) : List Nat → Bool
  | [] => isPrefixB n []
  | hay@(_ :: t) => isPrefixB n hay || containsSeq n t

/-- `str::strip_prefix`: the remainder when `p` is a prefix. -/
def dropPre (p l : List Nat) : Option (List Nat) :=
  if isPrefixB p l then some (l.drop p.length) else none

/-- ASCII restriction of `str::to_lowercase`. -/
def asciiLower (b : Nat) : Nat := if 65 ≤ b ∧ b ≤ 90 then b + 32 else b

/-- Lowercase a byte string (ASCII restriction of `str::to_lowercase`). -/
def lowerBytes (l : List Nat) : List Nat := l.map asciiLower

/-! ## Paths (Unix `std::path`) -/

/-- One component of a path, as produced by `Path::components`. -/
inductive Component
  | rootDir
  | curDir
  | parentDir
  | normal (name : List Nat)
  deriving DecidableEq, Repr

/-- Split a byte string on `/` (byte 47). -/
def splitSlash (l : List Nat) : List (List Nat) := l.splitOn 47

/-- `Path::components` on Unix: a leading `/` yields `RootDir`; empty
and `.` components are dropped, except that a relative path beginning
with `.` keeps one leading `CurDir`; `..` is kept as `ParentDir`. -/
def components (p : List Nat) : List Component :=
  let parts := (splitSlash p).filter (fun s => decide (s ≠ [] ∧ s ≠ [46]))
  let comps := parts.map (fun s => if s = [46, 46] then Component.parentDir else Component.normal s)
  if p.head? = some 47 then Component.rootDir :: comps
  else if p = [46] ∨ isPrefixB [46, 47] p then Component.curDir :: comps
  else comps

/-- `Path::starts_with`: whole-component prefix comparison.  `..`
components are compared literally, not resolved. -/
def pathStartsWith (p base : List Nat) : Bool :=
  (components base).isPrefixOf (components p)

/-- `Path::is_absolute` on Unix. -/
def isAbsolute (p : List Nat) : Bool := p.head? = some 47

/-- `PathBuf::push` / `Path::join` on Unix: an absolute argument
replaces the base; otherwise a separator is added unless the base is
empty or already ends in one. -/
def pathJoin (base rel : List Nat) : List Nat :=
  if isAbsolute rel then rel
  else if base = [] ∨ base.getLast? = some 47 then base ++ rel
  else base ++ 47 :: rel

/-- Render a component back to bytes (for rebuilding a parent path). -/
def compStr : Component → List Nat
  | .rootDir => [47]
  | .curDir => [46]
  | .parentDir => [46, 46]
  | .normal s => s

/-- Join rendered components with `/` separators. -/
def joinParts : List (List Nat) → List Nat
  | [] => []
  | [p] => p
  | p :: rest => p ++ 47 :: joinParts rest

/-- Rebuild a byte path from components. -/
def joinComps (cs : List Component) : List Nat :=
  match cs with
  | .rootDir :: rest => 47 :: joinParts (rest.map compStr)
  | _ => joinParts (cs.map compStr)

/-- `Path::parent`: the path without its final component; `None` for
the root path and the empty path. -/
def parentBytes (p : List Nat) : Option (List Nat) :=
  match components p with
  | [] => none
  | [Component.rootDir] => none
  | cs => some (joinComps cs.dropLast)

/-- Resolve `..` and `.` components lexically (used only to *state*
what a returned path refers to; the server never performs this). -/
def lexResolve (cs : List Component) : List Component :=
  cs.foldl
    (fun acc c =>
      match c with
      | Component.parentDir =>
        match acc.getLast? with
        | some (Component.normal _) => acc.dropLast
        | some Component.rootDir => acc
        | _ => acc ++ [c]
      | Component.curDir => acc
      | _ => acc ++ [c])
    []

/-- Basename of a byte path: the segment after the last `/`
(`DirEntry::file_name`). -/
def basenameBytes (p : List Nat) : List Nat :=
  (p.reverse.takeWhile (fun b => b ≠ 47)).reverse

/-- `Path::to_str().unwrap_or_default()` composed with
`normalize_path`: on Unix the bytes unchanged when they are valid
UTF-8, and the empty string otherwise. -/
def normalizePath (p : List Nat) : List Nat :=
  if validUtf8 p then p else []

/-! ## The listing data model (`PathType`, `PathItem`, derived `Ord`) -/

/-- `enum PathType` with its declaration order `Dir, SymlinkDir, File,
SymlinkFile` (source of the derived `Ord`). -/
inductive PathType
  | Dir
  | SymlinkDir
  | File
  | SymlinkFile
  deriving DecidableEq, Repr

/-- Discriminant of a `PathType` in declaration order. -/
def pathTypeRank : PathType → Nat
  | .Dir => 0
  | .SymlinkDir => 1
  | .File => 2
  | .SymlinkFile => 3

/-- `struct PathItem`: one row of a listing.  `name` is the byte string
of the POSIX relative path; `mtime` is milliseconds since the epoch. -/
structure PathItem where
  path_type : PathType
  name : List Nat
  mtime : Option Nat
  size : Option Nat
  deriving DecidableEq, Repr

/-- Derived `Ord` on `PathType`: comparison of discriminants. -/
def ptCmp (a b : PathItem) : Ordering :=
  compare (pathTypeRank a.path_type) (pathTypeRank b.path_type)

/-- `Ord` on byte strings (Rust `String`/slice lexicographic order). -/
def listCmp : List Nat → List Nat → Ordering
  | [], [] => .eq
  | [], _ :: _ => .lt
  | _ :: _, [] => .gt
  | a :: as, b :: bs => (compare a b).then (listCmp as bs)

/-- `Ord` on `Option<u64>`: `None` before `Some`. -/
def optCmp : Option Nat → Option Nat → Ordering
  | none, none => .eq
  | none, some _ => .lt
  | some _, none => .gt
  | some a, some b => compare a b

/-- Comparator of `PathItem.name` fields. -/
def nameCmp (a b : PathItem) : Ordering := listCmp a.name b.name

/-- Comparator of `PathItem.mtime` fields. -/
def mtimeCmp (a b : PathItem) : Ordering := optCmp a.mtime b.mtime

/-- Comparator of `PathItem.size` fields. -/
def sizeCmp (a b : PathItem) : Ordering := optCmp a.size b.size

/-- Derived `Ord` on `PathItem`: fields compared in declaration order
`(path_type, name, mtime, size)`, each tie broken by the next. -/
def pathItemCmp : PathItem → PathItem → Ordering :=
  compareLex ptCmp (compareLex nameCmp (compareLex mtimeCmp sizeCmp))

/-- The `≤` induced by the derived `Ord`, as used by `sort_unstable`. -/
def pathItemLe (a b : PathItem) : Bool := (pathItemCmp a b).isLE

/-- `Vec::sort_unstable` on `PathItem`s: some sorted permutation; with
a total order whose ties are structural equalities this is the unique
sorted rearrangement, so merge sort models it exactly. -/
def sortPaths (l : List PathItem) : List PathItem := l.mergeSort pathItemLe

/-! ## Filesystem model -/

/-- One node of the modelled filesystem.  `file`/`dir` are regular;
`symlinkFile`/`symlinkDir` are symlinks whose target resolves (the
carried content/metadata is the target's); `brokenSymlink` is a symlink
whose `symlink_metadata` succeeds but whose followed `metadata` fails;
`unreadable` is an entry for which even `symlink_metadata` fails. -/
inductive FsNode
  | file (content : List Nat) (mtime : Option Nat)
  | dir (mtime : Option Nat)
  | symlinkFile (content : List Nat) (mtime : Option Nat)
  | symlinkDir (mtime : Option Nat)
  | brokenSymlink
  | unreadable
  deriving DecidableEq, Repr

/-- The filesystem: an association list from absolute byte paths to
nodes, in directory-walk order. -/
abbrev Fs := List (List Nat × FsNode)

/-- Result of a successful `fs::metadata` (symlinks followed). -/
structure Meta where
  isDir : Bool
  isFile : Bool
  len : Nat
  mtime : Option Nat
  deriving DecidableEq, Repr

/-- `fs::metadata` on a node: follows symlinks, fails on broken
symlinks and unreadable entries. -/
def nodeMeta : FsNode → Option Meta
  | .file c m => some ⟨false, true, c.length, m⟩
  | .dir m => some ⟨true, false, 0, m⟩
  | .symlinkFile c m => some ⟨false, true, c.length, m⟩
  | .symlinkDir m => some ⟨true, false, 0, m⟩
  | .brokenSymlink => none
  | .unreadable => none

/-- `fs::symlink_metadata` on a node: `some b` with `b` the
`is_symlink` flag of the entry itself, `none` when it fails. -/
def nodeSMeta : FsNode → Option Bool
  | .file _ _ => some false
  | .dir _ => some false
  | .symlinkFile _ _ => some true
  | .symlinkDir _ => some true
  | .brokenSymlink => some true
  | .unreadable => none

/-- Whether the entry itself (no following) is a regular file
(`symlink_metadata().is_file()`). -/
def nodeIsFileNoFollow : FsNode → Bool
  | .file _ _ => true
  | _ => false

/-- Look a path up in the filesystem. -/
def fsLookup (fs : Fs) (p : List Nat) : Option FsNode :=
  (List.find? (fun e => e.1 == p) fs).map (·.2)

/-- `fs::metadata` by path. -/
def fsMetadata (fs : Fs) (p : List Nat) : Option Meta :=
  (fsLookup fs p).bind nodeMeta

/-- `fs::symlink_metadata` by path. -/
def fsSymlinkMeta (fs : Fs) (p : List Nat) : Option Bool :=
  (fsLookup fs p).bind nodeSMeta

/-- `fs::File::open` by path: the readable content of a regular file or
of a symlink to one. -/
def openFile (fs : Fs) (p : List Nat) : Option (List Nat) :=
  match fsLookup fs p with
  | some (.file c _) => some c
  | some (.symlinkFile c _) => some c
  | _ => none

/-- `fs::read_dir`: the direct children of `dir` (paths of the form
`dir ++ "/" ++ name` with no further separator), in store order. -/
def readDir (fs : Fs) (dir : List Nat) : List (List Nat × FsNode) :=
  fs.filter (fun e =>
    isPrefixB (dir ++ [47]) e.1 &&
      (let rest := e.1.drop (dir.length + 1)
       decide (rest ≠ []) && !(rest.contains 47)))

/-- `async_walkdir::WalkDir`: every entry strictly below `dir`, in
store order. -/
def walkDir (fs : Fs) (dir : List Nat) : List (List Nat × FsNode) :=
  fs.filter (fun e =>
    isPrefixB (dir ++ [47]) e.1 && decide (e.1.drop (dir.length + 1) ≠ []))

/-- Remove the entry at `p` (`fs::remove_file`). -/
def removeFile (fs : Fs) (p : List Nat) : Fs :=
  fs.filter (fun e => !(e.1 == p))

/-- Remove `p` and everything below it (`fs::remove_dir_all`). -/
def removeDirAll (fs : Fs) (p : List Nat) : Fs :=
  fs.filter (fun e => !(e.1 == p) && !(isPrefixB (p ++ [47]) e.1))

/-- Insert (or shadow) an entry. -/
def fsInsert (fs : Fs) (p : List Nat) (n : FsNode) : Fs := (p, n) :: fs

/-- `fs::create_dir_all`: create `p` and its missing ancestors as
directories (fuelled recursion on the parent chain). -/
def createDirAllAux : Nat → Fs → List Nat → Fs
  | 0, fs, _ => fs
  | fuel + 1, fs, p =>
    if (fsLookup fs p).isSome then fs
    else
      match parentBytes p with
      | some par => fsInsert (createDirAllAux fuel fs par) p (.dir none)
      | none => fsInsert fs p (.dir none)

/-- `fs::create_dir_all` entry point. -/
def createDirAll (fs : Fs) (p : List Nat) : Fs :=
  createDirAllAux (p.length + 1) fs p

/-! ## Requests, responses and configuration -/

/-- The HTTP methods the dispatcher distinguishes. -/
inductive Method
  | get
  | put
  | delete
  | other
  deriving DecidableEq, Repr

/-- The request data the server consumes: method, raw
(percent-encoded) URI path, raw query string (empty when absent,
mirroring `query().unwrap_or_default()`), raw `Authorization` header
bytes, and body bytes. -/
structure Request where
  method : Method
  uriPath : List Nat
  query : List Nat
  authHeader : Option (List Nat)
  body : List Nat

/-- `struct Args` as consumed by the server: canonicalized root path
bytes, readonly flag, optional credential bytes (a Rust `String`). -/
structure Args where
  path : List Nat
  readonly : Bool
  auth : Option (List Nat)

/-- The compression tag of a ZIP entry. -/
inductive Compression
  | deflate
  deriving DecidableEq, Repr

/-- One entry of the produced ZIP archive: entry name, compression
method, file bytes. -/
structure ZipEntry where
  name : List Nat
  compression : Compression
  content : List Nat
  deriving DecidableEq, Repr

/-- `struct IndexData`: the JSON payload injected into the HTML
template. -/
structure IndexData where
  breadcrumb : List Nat
  paths : List PathItem
  readonly : Bool
  deriving DecidableEq, Repr

/-- The distinct response shapes the server produces:
`status_code!`-style plain status responses, the 401 carrying
`WWW-Authenticate: Basic`, the HTML index page, a streamed file body,
and a streamed ZIP body. -/
inductive Response
  | code (status : Nat)
  | unauthorized
  | index (data : IndexData)
  | file (content : List Nat)
  | zip (entries : List ZipEntry)
  deriving DecidableEq, Repr

/-- HTTP status of a response (`Response::builder` defaults to 200). -/
def statusOf : Response → Nat
  | .code s => s
  | .unauthorized => 401
  | _ => 200

/-- Extra headers of a response. -/
def headersOf : Response → List (String × String)
  | .unauthorized => [("WWW-Authenticate", "Basic")]
  | _ => []

/-! ## The handlers (`impl InnerService` and free functions) -/

/-- `InnerService::get_file_path`: strip the leading byte, percent
decode (UTF-8 failure is a `BoxResult` error), join onto the root, and
accept exactly when the joined path starts with the root
component-wise. -/
def get_file_path (root uriPath : List Nat) : Except Unit (Option (List Nat)) :=
  let decoded := percentDecode (uriPath.drop 1)
  if validUtf8 decoded then
    let path := pathJoin root decoded
    if pathStartsWith path root then .ok (some path) else .ok none
  else .error ()

/-- `HeaderValue::to_str`: succeeds exactly when every byte is visible
ASCII (32–126). -/
def headerVisible (v : List Nat) : Bool := v.all (fun b => 32 ≤ b && b ≤ 126)

/-- The bytes of `"Basic "`. -/
def basicBytes : List Nat := [66, 97, 115, 105, 99, 32]

/-- `InnerService::auth_guard`: `Ok true` with no credential;
otherwise requires an `Authorization` header, `to_str` it (`?`), test
`contains("Basic ")` (not a prefix test!), slice from byte 6, base64
decode (`?`), UTF-8 check (`?`), and compare with the credential. -/
def auth_guard (args : Args) (req : Request) : Except Unit Bool :=
  match args.auth with
  | none => .ok true
  | some auth =>
    match req.authHeader with
    | none => .ok false
    | some value =>
      if headerVisible value then
        if containsSeq basicBytes value then
          match b64decode (value.drop 6) with
          | .error _ => .error ()
          | .ok bytes =>
            if validUtf8 bytes then .ok (bytes == auth) else .error ()
        else .ok false
      else .error ()

/-- `auth_guard(&req).unwrap_or_default()`: an error counts as a
deny. -/
def authorized (args : Args) (req : Request) : Bool :=
  match auth_guard args req with
  | .ok b => b
  | .error _ => false

/-- Byte form of `Path::strip_prefix(base)` for paths produced by a
directory walk or enumeration, which always have the shape
`base ++ "/" ++ rel`; on such paths it agrees with the component-wise
`strip_prefix` of `std::path` (whose failure the source `unwrap`s
away). -/
def stripBase (base p : List Nat) : List Nat :=
  if isPrefixB (base ++ [47]) p then p.drop (base.length + 1) else p

/-- Component form of `Path::strip_prefix`, used for the breadcrumb
where the stripped base may be the filesystem root `/`. -/
def stripPathPre (base p : List Nat) : List Nat :=
  if (components base).isPrefixOf (components p) then
    joinComps ((components p).drop (components base).length)
  else p

/-- `get_path_item`: `fs::metadata` then `fs::symlink_metadata` (either
failure skips the entry), classify into the four `PathType`s, take the
mtime and, for file types, the length, and name the entry by its
normalized path relative to `base`. -/
def get_path_item (p base : List Nat) (node : FsNode) : Option PathItem :=
  match nodeMeta node, nodeSMeta node with
  | some meta, some isLink =>
    let pt :=
      match isLink, meta.isDir with
      | true, true => PathType.SymlinkDir
      | false, true => PathType.Dir
      | true, false => PathType.SymlinkFile
      | false, false => PathType.File
    some
      { path_type := pt
        name := normalizePath (stripBase base p)
        mtime := meta.mtime
        size :=
          match pt with
          | PathType.Dir | PathType.SymlinkDir => none
          | PathType.File | PathType.SymlinkFile => some meta.len }
  | _, _ => none

/-- `InnerService::get_breadcrumb`: the request path rendered relative
to the root's parent (or as is when the root has none). -/
def get_breadcrumb (args : Args) (p : List Nat) : List Nat :=
  match parentBytes args.path with
  | some par => normalizePath (stripPathPre par p)
  | none => normalizePath p

/-- `InnerService::send_index`: sort the items with the derived order
and wrap them with the breadcrumb and the readonly flag. -/
def send_index (args : Args) (p : List Nat) (items : List PathItem) : Response :=
  .index ⟨get_breadcrumb args p, sortPaths items, args.readonly⟩

/-- `InnerService::handle_ls_dir`: when the directory exists, one
`PathItem` per readable direct child; otherwise the empty listing. -/
def handle_ls_dir (args : Args) (fs : Fs) (p : List Nat) (exist : Bool) : Response :=
  let items :=
    if exist then (readDir fs p).filterMap (fun e => get_path_item e.1 p e.2)
    else []
  send_index args p items

/-- `InnerService::handle_query_dir`: walk the subtree; keep entries
whose lowercased basename contains the lowercased query, whose
`symlink_metadata` succeeds, and whose `get_path_item` succeeds. -/
def handle_query_dir (args : Args) (fs : Fs) (p q : List Nat) : Response :=
  let items :=
    (walkDir fs p).filterMap (fun e =>
      if !containsSeq (lowerBytes q) (lowerBytes (basenameBytes e.1)) then none
      else if (nodeSMeta e.2).isNone then none
      else get_path_item e.1 p e.2)
  send_index args p items

/-- `dir_zip`: walk the subtree; skip entries whose
`symlink_metadata` fails; for each regular (non-symlink) file whose
relative path is valid UTF-8, emit a DEFLATE entry named by that
relative path with the file's bytes. -/
def dirZipLoop (dir : List Nat) : List (List Nat × FsNode) → List ZipEntry
  | [] => []
  | e :: rest =>
    match nodeSMeta e.2 with
    | none => dirZipLoop dir rest
    | some _ =>
      if nodeIsFileNoFollow e.2 then
        if validUtf8 (stripBase dir e.1) then
          { name := stripBase dir e.1
            compression := Compression.deflate
            content :=
              match e.2 with
              | .file c _ => c
              | _ => [] } :: dirZipLoop dir rest
        else dirZipLoop dir rest
      else dirZipLoop dir rest

/-- `InnerService::handle_send_dir_zip`: stream the archive produced by
`dir_zip` over the subtree. -/
def handle_send_dir_zip (fs : Fs) (p : List Nat) : Response :=
  .zip (dirZipLoop p (walkDir fs p))

/-- `InnerService::handle_send_file`: open and stream the file; an
open failure is a `BoxResult` error. -/
def handle_send_file (fs : Fs) (p : List Nat) : Except Unit Response :=
  match openFile fs p with
  | some c => .ok (.file c)
  | none => .error ()

/-- The query-string bytes `"zip"`. -/
def zipBytes : List Nat := [122, 105, 112]

/-- The query-prefix bytes `"q="`. -/
def qEqBytes : List Nat := [113, 61]

/-- `InnerService::handle_static`: resolve the path (containment
failure → 403); on an existing directory dispatch on the query
(`zip`, `q=`, plain listing); on an existing file stream it; on a
missing path render the empty listing for a trailing-slash URI and 404
otherwise. -/
def handle_static (args : Args) (fs : Fs) (req : Request) : Except Unit Response :=
  match get_file_path args.path req.uriPath with
  | .error e => .error e
  | .ok none => .ok (.code 403)
  | .ok (some path) =>
    match fsMetadata fs path with
    | some meta =>
      if meta.isDir then
        if req.query = zipBytes then .ok (handle_send_dir_zip fs path)
        else
          match dropPre qEqBytes req.query with
          | some q => .ok (handle_query_dir args fs path q)
          | none => .ok (handle_ls_dir args fs path true)
      else handle_send_file fs path
    | none =>
      if req.uriPath.getLast? = some 47 then .ok (handle_ls_dir args fs path false)
      else .ok (.code 404)

/-- `fs::File::create` followed by `io::copy`: fails over an existing
directory, otherwise stores the body at the path. -/
def uploadWrite (fs : Fs) (path body : List Nat) : Except Unit (Response × Fs) :=
  match fsLookup fs path with
  | some (.dir _) => .error ()
  | some (.symlinkDir _) => .error ()
  | _ => .ok (.code 200, fsInsert fs path (.file body none))

/-- `InnerService::handle_upload`: resolve the path (containment
failure → 403); a path with no parent → 403; a parent that exists but
is not a directory → 403; a missing parent is created with
`create_dir_all`; then create/truncate the file with the request body
(creation over an existing directory is an I/O error). -/
def handle_upload (args : Args) (fs : Fs) (req : Request) : Except Unit (Response × Fs) :=
  match get_file_path args.path req.uriPath with
  | .error e => .error e
  | .ok none => .ok (.code 403, fs)
  | .ok (some path) =>
    match parentBytes path with
    | none => .ok (.code 403, fs)
    | some parent =>
      match fsMetadata fs parent with
      | some meta =>
        if !meta.isDir then .ok (.code 403, fs)
        else uploadWrite fs path req.body
      | none => uploadWrite (createDirAll fs parent) path req.body

/-- `InnerService::handle_delete`: resolve the path (containment
failure → 403); `fs::metadata` failure propagates (`?`); a file is
removed with `remove_file`, anything else with `remove_dir_all`. -/
def handle_delete (args : Args) (fs : Fs) (req : Request) : Except Unit (Response × Fs) :=
  match get_file_path args.path req.uriPath with
  | .error e => .error e
  | .ok none => .ok (.code 403, fs)
  | .ok (some path) =>
    match fsMetadata fs path with
    | none => .error ()
    | some meta =>
      if meta.isFile then .ok (.code 200, removeFile fs path)
      else .ok (.code 200, removeDirAll fs path)

/-- `InnerService::handle`: the auth gate first (deny → 401 with
`WWW-Authenticate: Basic`), then routing by method; PUT checks the
readonly flag before anything else; DELETE is not gated by it; other
methods → 404. -/
def handle (args : Args) (fs : Fs) (req : Request) : Except Unit (Response × Fs) :=
  if !authorized args req then .ok (.unauthorized, fs)
  else
    match req.method with
    | .get =>
      match handle_static args fs req with
      | .ok r => .ok (r, fs)
      | .error e => .error e
    | .put =>
      if args.readonly then .ok (.code 403, fs)
      else handle_upload args fs req
    | .delete => handle_delete args fs req
    | .other => .ok (.code 404, fs)

/-- `InnerService::call`: any error bubbling out of `handle` becomes a
plain `500 Internal Server Error`. -/
def call (args : Args) (fs : Fs) (req : Request) : Response × Fs :=
  match handle args fs req with
  | .ok r => r
  | .error _ => (.code 500, fs)

/-- The `paths` array an index response presents (empty for any other
response shape). -/
def responsePaths : Response → List PathItem
  | .index d => d.paths
  | _ => []

/-! ## Concrete fixtures used by closed theorems -/

/-- The root path `/srv` of the spec's concrete scenarios. -/
def srvRoot : List Nat := [47, 115, 114, 118]

/-- The request URI path `/%2E%2E/etc/passwd`. -/
def dotDotUri : List Nat :=
  [47, 37, 50, 69, 37, 50, 69, 47, 101, 116, 99, 47, 112, 97, 115, 115, 119, 100]

/-- The joined path `/srv/../etc/passwd`. -/
def dotDotJoined : List Nat :=
  [47, 115, 114, 118, 47, 46, 46, 47, 101, 116, 99, 47, 112, 97, 115, 115, 119, 100]

/-- The path `/etc/passwd`. -/
def etcPasswd : List Nat := [47, 101, 116, 99, 47, 112, 97, 115, 115, 119, 100]

/-- The directory path `/srv/d`. -/
def zDir : List Nat := [47, 115, 114, 118, 47, 100]

/-- A path `/srv/d/<0xFF>`: a regular file whose name is not valid
UTF-8. -/
def zBadFile : List Nat := [47, 115, 114, 118, 47, 100, 47, 255]

/-- A filesystem with one regular file, named outside UTF-8, under
`/srv/d`. -/
def zFs : Fs := [(zDir, FsNode.dir none), (zBadFile, FsNode.file [65] none)]

/-- The path `/srv/d/x`. -/
def qBroken : List Nat := [47, 115, 114, 118, 47, 100, 47, 120]

/-- A filesystem with a broken symlink at `/srv/d/x`. -/
def qFs : Fs := [(zDir, FsNode.dir none), (qBroken, FsNode.brokenSymlink)]

/-- A filesystem with a regular file at `/srv/d/x`. -/
def qwFs : Fs := [(zDir, FsNode.dir none), (qBroken, FsNode.file [65] (some 5))]

/-- The credential bytes `alice:secret`. -/
def aliceSecret : List Nat := [97, 108, 105, 99, 101, 58, 115, 101, 99, 114, 101, 116]

/-- The base64 bytes `YWxpY2U6c2VjcmV0` (encoding of `alice:secret`). -/
def b64Alice : List Nat :=
  [89, 87, 120, 112, 89, 50, 85, 54, 99, 50, 86, 106, 99, 109, 86, 48]

/-! ## Claim theorems -/

/-- Claim C1 (code_bug evidence).  The spec demands that a URI whose
decoded path escapes the root be answered 403 and that no filesystem
operation touch a path outside the root, and gives
`GET /%2E%2E/etc/passwd` → 403 as its example.  The code's containment
check is `Path::starts_with`, which compares components without
resolving `..`: the joined path `/srv/../etc/passwd` *does* start with
`/srv` component-wise, so the resolver accepts it; the lexical
resolution of the accepted path is `/etc/passwd`, which is not under
the root; the handler then performs `fs::metadata`/`File::open` on that
path — the request is answered 404 (empty filesystem) or even 200 with
the file's bytes (when the operating system resolves the traversal),
never 403. -/
theorem c1_traversal_code_bug :
    get_file_path srvRoot dotDotUri = .ok (some dotDotJoined)
    ∧ pathStartsWith dotDotJoined srvRoot = true
    ∧ joinComps (lexResolve (components dotDotJoined)) = etcPasswd
    ∧ (components srvRoot).isPrefixOf (lexResolve (components dotDotJoined)) = false
    ∧ call ⟨srvRoot, false, none⟩ []
        ⟨Method.get, dotDotUri, [], none, []⟩ = (.code 404, [])
    ∧ call ⟨srvRoot, false, none⟩ [(dotDotJoined, FsNode.file [115] none)]
        ⟨Method.get, dotDotUri, [], none, []⟩
        = (.file [115], [(dotDotJoined, FsNode.file [115] none)])
    := by decide

/-- Claim C9 (counterexample).  The claim says percent-decoding fails
on invalid percent sequences.  It does not: a `%` that is not followed
by two hex digits is passed through verbatim (`/%zz` resolves to the
file name `%zz` with no error of any kind). -/
theorem c9_counterexample :
    percentDecode [37, 122, 122] = [37, 122, 122]
    ∧ get_file_path srvRoot [47, 37, 122, 122]
        = .ok (some [47, 115, 114, 118, 47, 37, 122, 122])
    := by decide

/-- Claim C9 (amended).  Percent-decoding of the request URI path
fails exactly when the decoded bytes are not valid UTF-8; an invalid
percent sequence is passed through verbatim and is not an error; a
decoding failure propagates as a handler error, which the dispatcher
answers with 500 (the code has no distinct `BadRequest` response). -/
theorem c9_amended :
    (∀ root uri, get_file_path root uri = .error () ↔
        validUtf8 (percentDecode (uri.drop 1)) = false)
    ∧ (∀ a b t, (hexVal a).isNone ∨ (hexVal b).isNone →
        percentDecode (37 :: a :: b :: t) = 37 :: percentDecode (a :: b :: t))
    ∧ (∀ (args : Args) (fs : Fs) (req : Request), authorized args req = true →
        req.method = Method.get →
        validUtf8 (percentDecode (req.uriPath.drop 1)) = false →
        call args fs req = (.code 500, fs)) := by
  refine ⟨fun root uri => ?_, fun a b t h => ?_, fun args fs req hauth hm hdec => ?_⟩
  · simp only [get_file_path]
    cases hv : validUtf8 (percentDecode (uri.drop 1))
    · simp
    · constructor
      · intro hc
        rw [if_pos rfl] at hc
        split at hc <;> simp_all
      · intro hc
        exact Bool.noConfusion hc
  · simp only [percentDecode]
    rcases h1 : hexVal a with _ | va <;> rcases h2 : hexVal b with _ | vb <;>
      simp_all
  · have herr : get_file_path args.path req.uriPath = .error () := by
      simp only [get_file_path]
      rw [hdec]
      simp
    simp [call, handle, hauth, hm, handle_static, herr]

/-- Claim C9 (amended, witness): `GET /%FF` with no credential decodes
to a non-UTF-8 byte and is answered 500. -/
theorem c9_amended_witness :
    get_file_path srvRoot [47, 37, 70, 70] = .error ()
    ∧ call ⟨srvRoot, false, none⟩ [] ⟨Method.get, [47, 37, 70, 70], [], none, []⟩
        = (.code 500, []) :=
  ⟨(c9_amended.1 srvRoot [47, 37, 70, 70]).mpr (by decide),
    c9_amended.2.2 ⟨srvRoot, false, none⟩ []
      ⟨Method.get, [47, 37, 70, 70], [], none, []⟩ rfl rfl (by decide)⟩

/-- Claim C3: with the readonly flag set, a PUT is answered 403 before
any path resolution or filesystem access — shown by the answer holding
for *every* filesystem and every URI, malformed ones included, and
leaving the filesystem untouched — while DELETE is routed to
`handle_delete` (which deletes) regardless of the flag: its behaviour
equals that of the same server with readonly cleared. -/
theorem c3_readonly_put_delete (args : Args) (fs : Fs) (req : Request)
    (hauth : authorized args req = true) (hro : args.readonly = true) :
    (req.method = Method.put → call args fs req = (.code 403, fs))
    ∧ (req.method = Method.delete →
        handle args fs req = handle_delete args fs req
        ∧ call args fs req = call ⟨args.path, false, args.auth⟩ fs req) := by
  have hsame : authorized ⟨args.path, false, args.auth⟩ req = authorized args req := rfl
  have hd : handle_delete ⟨args.path, false, args.auth⟩ fs req
      = handle_delete args fs req := rfl
  constructor
  · intro hm
    simp [call, handle, hauth, hm, hro]
  · intro hm
    refine ⟨by simp [handle, hauth, hm], ?_⟩
    simp [call, handle, hauth, hm, hsame, hd]

/-- Claim C3 (witness): on a readonly server with no credential, a PUT
to `/a` is answered 403 with the filesystem untouched, and a DELETE of
an existing file behaves exactly as on a non-readonly server —
deleting the file with 200. -/
theorem c3_witness :
    call ⟨srvRoot, true, none⟩ [] ⟨Method.put, [47, 97], [], none, [1]⟩ = (.code 403, [])
    ∧ call ⟨srvRoot, true, none⟩ [([47, 115, 114, 118, 47, 97], FsNode.file [104] none)]
        ⟨Method.delete, [47, 97], [], none, []⟩
      = call ⟨srvRoot, false, none⟩ [([47, 115, 114, 118, 47, 97], FsNode.file [104] none)]
        ⟨Method.delete, [47, 97], [], none, []⟩ :=
  ⟨(c3_readonly_put_delete ⟨srvRoot, true, none⟩ [] ⟨Method.put, [47, 97], [], none, [1]⟩
      rfl rfl).1 rfl,
    ((c3_readonly_put_delete ⟨srvRoot, true, none⟩
      [([47, 115, 114, 118, 47, 97], FsNode.file [104] none)]
      ⟨Method.delete, [47, 97], [], none, []⟩ rfl rfl).2 rfl).2⟩

/-- Claim C7: a GET whose resolved path has no metadata (the path does
not exist) is answered with the 200 empty-listing index page when the
request URI path ends in `/`, and with 404 otherwise. -/
theorem c7_get_missing (args : Args) (fs : Fs) (req : Request) (path : List Nat)
    (hauth : authorized args req = true) (hm : req.method = Method.get)
    (hres : get_file_path args.path req.uriPath = .ok (some path))
    (hmeta : fsMetadata fs path = none) :
    (req.uriPath.getLast? = some 47 →
      call args fs req = (.index ⟨get_breadcrumb args path, [], args.readonly⟩, fs))
    ∧ (req.uriPath.getLast? ≠ some 47 → call args fs req = (.code 404, fs))
    ∧ statusOf (.index ⟨get_breadcrumb args path, [], args.readonly⟩) = 200
    ∧ statusOf (.code 404) = 404 := by
  refine ⟨fun hslash => ?_, fun hslash => ?_, rfl, rfl⟩
  · simp [call, handle, hauth, hm, handle_static, hres, hmeta, hslash,
      handle_ls_dir, send_index, sortPaths]
  · simp [call, handle, hauth, hm, handle_static, hres, hmeta, hslash]

/-- Claim C7 (witness): with an empty filesystem, `GET /x/` renders the
empty listing and `GET /x` is 404. -/
theorem c7_witness :
    call ⟨srvRoot, false, none⟩ [] ⟨Method.get, [47, 120, 47], [], none, []⟩
      = (.index ⟨get_breadcrumb ⟨srvRoot, false, none⟩ [47, 115, 114, 118, 47, 120, 47], [], false⟩, [])
    ∧ call ⟨srvRoot, false, none⟩ [] ⟨Method.get, [47, 120], [], none, []⟩
      = (.code 404, []) :=
  ⟨(c7_get_missing ⟨srvRoot, false, none⟩ [] ⟨Method.get, [47, 120, 47], [], none, []⟩
      [47, 115, 114, 118, 47, 120, 47] rfl rfl (by decide) rfl).1 rfl,
    (c7_get_missing ⟨srvRoot, false, none⟩ [] ⟨Method.get, [47, 120], [], none, []⟩
      [47, 115, 114, 118, 47, 120] rfl rfl (by decide) rfl).2.1 (by decide)⟩

/-- Claim C8: DELETE on a contained path stats the target; a file is
removed with `remove_file` (unlink of the single entry), anything else
with `remove_dir_all` (removal of the entry and its whole subtree),
answered 200; a missing target makes the stat fail, which propagates
and is answered 500. -/
theorem c8_delete (args : Args) (fs : Fs) (req : Request) (path : List Nat)
    (hauth : authorized args req = true) (hm : req.method = Method.delete)
    (hres : get_file_path args.path req.uriPath = .ok (some path)) :
    (fsMetadata fs path = none → call args fs req = (.code 500, fs))
    ∧ (∀ m, fsMetadata fs path = some m → m.isFile = true →
        call args fs req = (.code 200, removeFile fs path))
    ∧ (∀ m, fsMetadata fs path = some m → m.isFile = false →
        call args fs req = (.code 200, removeDirAll fs path)) := by
  refine ⟨fun hmeta => ?_, fun m hmeta hf => ?_, fun m hmeta hf => ?_⟩
  · simp [call, handle, handle_delete, hauth, hm, hres, hmeta]
  · simp [call, handle, handle_delete, hauth, hm, hres, hmeta, hf]
  · simp [call, handle, handle_delete, hauth, hm, hres, hmeta, hf]

/-- Claim C8 (witness): deleting an existing file `/a` unlinks exactly
that entry with 200; deleting a directory removes its subtree with
200; deleting a missing path is 500. -/
theorem c8_witness :
    call ⟨srvRoot, false, none⟩
        [([47, 115, 114, 118, 47, 97], FsNode.file [104] none)]
        ⟨Method.delete, [47, 97], [], none, []⟩ = (.code 200, [])
    ∧ call ⟨srvRoot, false, none⟩
        [([47, 115, 114, 118, 47, 100], FsNode.dir none),
         ([47, 115, 114, 118, 47, 100, 47, 120], FsNode.file [1] none)]
        ⟨Method.delete, [47, 100], [], none, []⟩ = (.code 200, [])
    ∧ call ⟨srvRoot, false, none⟩ [] ⟨Method.delete, [47, 97], [], none, []⟩
        = (.code 500, []) := by
  refine ⟨?_, ?_, ?_⟩
  · have h := (c8_delete ⟨srvRoot, false, none⟩
      [([47, 115, 114, 118, 47, 97], FsNode.file [104] none)]
      ⟨Method.delete, [47, 97], [], none, []⟩ [47, 115, 114, 118, 47, 97]
      rfl rfl (by decide)).2.1 ⟨false, true, 1, none⟩ (by decide) rfl
    simpa using h
  · have h := (c8_delete ⟨srvRoot, false, none⟩
      [([47, 115, 114, 118, 47, 100], FsNode.dir none),
       ([47, 115, 114, 118, 47, 100, 47, 120], FsNode.file [1] none)]
      ⟨Method.delete, [47, 100], [], none, []⟩ [47, 115, 114, 118, 47, 100]
      rfl rfl (by decide)).2.2 ⟨true, false, 0, none⟩ (by decide) rfl
    simpa using h
  · exact (c8_delete ⟨srvRoot, false, none⟩ [] ⟨Method.delete, [47, 97], [], none, []⟩
      [47, 115, 114, 118, 47, 97] rfl rfl (by decide)).1 rfl

/-- Claim C10: a PUT on a non-readonly server whose resolved path has
no parent, or whose parent exists but is not a directory, is answered
403 with the filesystem unchanged (no file created or modified). -/
theorem c10_put_bad_parent (args : Args) (fs : Fs) (req : Request) (path : List Nat)
    (hauth : authorized args req = true) (hro : args.readonly = false)
    (hm : req.method = Method.put)
    (hres : get_file_path args.path req.uriPath = .ok (some path)) :
    (parentBytes path = none → call args fs req = (.code 403, fs))
    ∧ (∀ par m, parentBytes path = some par → fsMetadata fs par = some m →
        m.isDir = false → call args fs req = (.code 403, fs)) := by
  refine ⟨fun hpar => ?_, fun par m hpar hmeta hdir => ?_⟩
  · simp [call, handle, handle_upload, hauth, hro, hm, hres, hpar]
  · simp [call, handle, handle_upload, hauth, hro, hm, hres, hpar, hmeta, hdir]

/-- `Nat.compare` is oriented. -/
theorem natCmp_symm (a b : Nat) : (compare a b).swap = compare b a :=
  Batteries.OrientedCmp.symm a b

/-- The `≤` induced by `Nat.compare` is transitive. -/
theorem natCmp_le_trans (a b c : Nat)
    (h1 : compare a b ≠ .gt) (h2 : compare b c ≠ .gt) : compare a c ≠ .gt := by
  rw [ne_eq, Nat.compare_eq_gt] at h1 h2 ⊢
  omega

/-- `listCmp` is oriented: swapping the arguments swaps the result. -/
theorem listCmp_symm : ∀ (a b : List Nat), (listCmp a b).swap = listCmp b a
  | [], [] => rfl
  | [], _ :: _ => rfl
  | _ :: _, [] => rfl
  | a :: as, b :: bs => by
    simp only [listCmp, Ordering.swap_then, listCmp_symm as bs]
    rw [Batteries.OrientedCmp.symm a b]

/-- The `≤` induced by `listCmp` is transitive. -/
theorem listCmp_le_trans : ∀ (a b c : List Nat),
    listCmp a b ≠ .gt → listCmp b c ≠ .gt → listCmp a c ≠ .gt
  | [], _, c, _, _ => by cases c <;> simp [listCmp]
  | _ :: _, [], _, h1, _ => by simp [listCmp] at h1
  | _ :: _, _ :: _, [], _, h2 => by simp [listCmp] at h2
  | a :: as, b :: bs, c :: cs, h1, h2 => by
    simp only [listCmp, ne_eq, Ordering.then_eq_gt, not_or, not_and] at h1 h2 ⊢
    rcases hab : compare a b with _ | _ | _ <;> rw [hab] at h1 <;>
      rcases hbc : compare b c with _ | _ | _ <;> rw [hbc] at h2
    all_goals
      first
      | exact absurd rfl h1.1
      | exact absurd rfl h2.1
      | skip
    · have hac : compare a c = Ordering.lt := by
        rw [Nat.compare_eq_lt] at hab hbc ⊢; omega
      rw [hac]; exact ⟨fun h => Ordering.noConfusion h, fun h => Ordering.noConfusion h⟩
    · have hac : compare a c = Ordering.lt := by
        rw [Nat.compare_eq_lt] at hab ⊢; rw [Nat.compare_eq_eq] at hbc; omega
      rw [hac]; exact ⟨fun h => Ordering.noConfusion h, fun h => Ordering.noConfusion h⟩
    · have hac : compare a c = Ordering.lt := by
        rw [Nat.compare_eq_lt] at hbc ⊢; rw [Nat.compare_eq_eq] at hab; omega
      rw [hac]; exact ⟨fun h => Ordering.noConfusion h, fun h => Ordering.noConfusion h⟩
    · have hac : compare a c = Ordering.eq := by
        rw [Nat.compare_eq_eq] at hab hbc ⊢; omega
      rw [hac]
      exact ⟨fun h => Ordering.noConfusion h,
        fun _ => listCmp_le_trans as bs cs (h1.2 rfl) (h2.2 rfl)⟩

/-- `listCmp` answers `eq` exactly on equal lists. -/
theorem listCmp_eq_iff : ∀ (a b : List Nat), listCmp a b = .eq ↔ a = b
  | [], [] => by simp [listCmp]
  | [], _ :: _ => by simp [listCmp]
  | _ :: _, [] => by simp [listCmp]
  | a :: as, b :: bs => by
    simp [listCmp, Ordering.then_eq_eq, Nat.compare_eq_eq, listCmp_eq_iff as bs]

/-- `optCmp` is oriented. -/
theorem optCmp_symm : ∀ (a b : Option Nat), (optCmp a b).swap = optCmp b a
  | none, none => rfl
  | none, some _ => rfl
  | some _, none => rfl
  | some a, some b => natCmp_symm a b

/-- The `≤` induced by `optCmp` is transitive. -/
theorem optCmp_le_trans : ∀ (a b c : Option Nat),
    optCmp a b ≠ .gt → optCmp b c ≠ .gt → optCmp a c ≠ .gt := by
  intro a b c h1 h2
  cases a <;> cases b <;> cases c <;> simp_all [optCmp]
  exact natCmp_le_trans _ _ _ h1 h2

/-- `optCmp` answers `eq` exactly on equal options. -/
theorem optCmp_eq_iff : ∀ (a b : Option Nat), optCmp a b = .eq ↔ a = b
  | none, none => by simp [optCmp]
  | none, some _ => by simp [optCmp]
  | some _, none => by simp [optCmp]
  | some a, some b => by simp [optCmp, Nat.compare_eq_eq]

instance : Batteries.TransCmp listCmp where
  symm := listCmp_symm
  le_trans := fun h1 h2 => listCmp_le_trans _ _ _ h1 h2

instance : Batteries.TransCmp optCmp where
  symm := optCmp_symm
  le_trans := fun h1 h2 => optCmp_le_trans _ _ _ h1 h2

instance : Batteries.TransCmp ptCmp where
  symm := fun x y => natCmp_symm (pathTypeRank x.path_type) (pathTypeRank y.path_type)
  le_trans := fun h1 h2 => natCmp_le_trans _ _ _ h1 h2

instance : Batteries.TransCmp nameCmp where
  symm := fun x y => listCmp_symm x.name y.name
  le_trans := fun h1 h2 => listCmp_le_trans _ _ _ h1 h2

instance : Batteries.TransCmp mtimeCmp where
  symm := fun x y => optCmp_symm x.mtime y.mtime
  le_trans := fun h1 h2 => optCmp_le_trans _ _ _ h1 h2

instance : Batteries.TransCmp sizeCmp where
  symm := fun x y => optCmp_symm x.size y.size
  le_trans := fun h1 h2 => optCmp_le_trans _ _ _ h1 h2

instance : Batteries.TransCmp pathItemCmp :=
  inferInstanceAs
    (Batteries.TransCmp (compareLex ptCmp (compareLex nameCmp (compareLex mtimeCmp sizeCmp))))

/-- `Ordering.isLE` is exactly "not `gt`". -/
theorem ordering_isLE_iff (o : Ordering) : o.isLE = true ↔ o ≠ .gt := by
  cases o <;> simp [Ordering.isLE]

/-- `pathItemCmp` is oriented. -/
theorem pathItemCmp_symm (a b : PathItem) : (pathItemCmp a b).swap = pathItemCmp b a :=
  Batteries.OrientedCmp.symm a b

/-- The derived order on `PathItem` is total. -/
theorem pathItemLe_total (a b : PathItem) : (pathItemLe a b || pathItemLe b a) = true := by
  unfold pathItemLe
  cases h : pathItemCmp a b
  · simp [Ordering.isLE]
  · simp [Ordering.isLE]
  · have hba : pathItemCmp b a = .lt := by
      rw [← pathItemCmp_symm a b, h]; rfl
    simp [hba, Ordering.isLE]

/-- The derived order on `PathItem` is transitive. -/
theorem pathItemLe_trans (a b c : PathItem) :
    pathItemLe a b = true → pathItemLe b c = true → pathItemLe a c = true := by
  unfold pathItemLe
  simp only [ordering_isLE_iff]
  exact fun h1 h2 => Batteries.TransCmp.le_trans h1 h2

/-- `pathTypeRank` is injective. -/
theorem pathTypeRank_inj : ∀ (x y : PathType), pathTypeRank x = pathTypeRank y → x = y := by
  intro x y h
  cases x <;> cases y <;> first | rfl | exact absurd h (by decide)

/-- The derived order on `PathItem` is antisymmetric: mutual `≤` means
all four fields agree. -/
theorem pathItemLe_antisymm (a b : PathItem) :
    pathItemLe a b = true → pathItemLe b a = true → a = b := by
  unfold pathItemLe
  simp only [ordering_isLE_iff]
  intro h1 h2
  have heq : pathItemCmp a b = .eq := by
    cases h : pathItemCmp a b
    · exfalso
      apply h2
      rw [← pathItemCmp_symm a b, h]
      rfl
    · rfl
    · exact absurd h h1
  have hsplit : ptCmp a b = .eq ∧ nameCmp a b = .eq ∧ mtimeCmp a b = .eq ∧ sizeCmp a b = .eq := by
    have h' := heq
    simp only [pathItemCmp, compareLex, Ordering.then_eq_eq] at h'
    exact ⟨h'.1, h'.2.1, h'.2.2.1, h'.2.2.2⟩
  obtain ⟨hpt, hn, hmt, hsz⟩ := hsplit
  have e1 : a.path_type = b.path_type := pathTypeRank_inj _ _ (Nat.compare_eq_eq.mp hpt)
  have e2 : a.name = b.name := (listCmp_eq_iff _ _).mp hn
  have e3 : a.mtime = b.mtime := (optCmp_eq_iff _ _).mp hmt
  have e4 : a.size = b.size := (optCmp_eq_iff _ _).mp hsz
  cases a
  cases b
  simp_all

/-- `sort_unstable` output is sorted for the derived order. -/
theorem sortPaths_sorted (l : List PathItem) :
    (sortPaths l).Pairwise (fun a b => pathItemLe a b = true) :=
  List.sorted_mergeSort pathItemLe_trans pathItemLe_total l

/-- Claim C4: every listing response — directory listing and search —
presents its entries sorted ascending in the order induced by
`(path_type, name, mtime, size)` with that field precedence, which is a
total order (total, transitive, antisymmetric), `path_type` being
ranked `Dir < SymlinkDir < File < SymlinkFile`. -/
theorem c4_listing_sorted :
    (pathTypeRank PathType.Dir < pathTypeRank PathType.SymlinkDir
      ∧ pathTypeRank PathType.SymlinkDir < pathTypeRank PathType.File
      ∧ pathTypeRank PathType.File < pathTypeRank PathType.SymlinkFile)
    ∧ (∀ a b : PathItem, (pathItemLe a b || pathItemLe b a) = true)
    ∧ (∀ a b c : PathItem,
        pathItemLe a b = true → pathItemLe b c = true → pathItemLe a c = true)
    ∧ (∀ a b : PathItem, pathItemLe a b = true → pathItemLe b a = true → a = b)
    ∧ (∀ (args : Args) (fs : Fs) (p : List Nat) (ex : Bool),
        (responsePaths (handle_ls_dir args fs p ex)).Pairwise
          (fun a b => pathItemLe a b = true))
    ∧ (∀ (args : Args) (fs : Fs) (p q : List Nat),
        (responsePaths (handle_query_dir args fs p q)).Pairwise
          (fun a b => pathItemLe a b = true)) := by
  refine ⟨by decide, pathItemLe_total, pathItemLe_trans, pathItemLe_antisymm,
    fun args fs p ex => ?_, fun args fs p q => ?_⟩
  · exact sortPaths_sorted _
  · exact sortPaths_sorted _

/-- Claim C4 (witness): transitivity instantiated on three concrete
items ordered by `path_type` rank, with the hypotheses evaluated. -/
theorem c4_witness :
    pathItemLe ⟨PathType.Dir, [97], none, none⟩ ⟨PathType.File, [97], none, none⟩ = true :=
  c4_listing_sorted.2.2.1 ⟨PathType.Dir, [97], none, none⟩
    ⟨PathType.SymlinkDir, [97], none, none⟩ ⟨PathType.File, [97], none, none⟩
    (by decide) (by decide)

/-- `isPrefixB` is the existence of a suffix completing the prefix. -/
theorem isPrefixB_iff : ∀ (p l : List Nat), isPrefixB p l = true ↔ ∃ t, l = p ++ t
  | [], l => by simp [isPrefixB]
  | _ :: _, [] => by simp [isPrefixB]
  | a :: as, b :: bs => by
    simp only [isPrefixB, Bool.and_eq_true, beq_iff_eq, isPrefixB_iff as bs,
      List.cons_append, List.cons.injEq]
    constructor
    · rintro ⟨hab, t, ht⟩
      exact ⟨t, hab.symm, ht⟩
    · rintro ⟨t, hba, ht⟩
      exact ⟨hba.symm, t, ht⟩

/-- `containsSeq` is substring occurrence. -/
theorem containsSeq_iff : ∀ (n h : List Nat),
    containsSeq n h = true ↔ ∃ s t, h = s ++ n ++ t
  | n, [] => by
    simp only [containsSeq, isPrefixB_iff]
    constructor
    · rintro ⟨t, ht⟩
      exact ⟨[], t, by simpa using ht⟩
    · rintro ⟨s, t, he⟩
      rcases List.append_eq_nil.mp (List.append_eq_nil.mp he.symm).1 with ⟨hs, hn⟩
      exact ⟨t, by simp_all⟩
  | n, x :: t => by
    simp only [containsSeq, Bool.or_eq_true, isPrefixB_iff, containsSeq_iff n t]
    constructor
    · rintro (⟨u, hu⟩ | ⟨s, u, hs⟩)
      · exact ⟨[], u, by simpa using hu⟩
      · exact ⟨x :: s, u, by rw [List.cons_append, List.cons_append, hs]⟩
    · rintro ⟨s, u, he⟩
      cases s with
      | nil => exact Or.inl ⟨u, by simpa using he⟩
      | cons y s2 =>
        simp only [List.cons_append, List.cons.injEq] at he
        exact Or.inr ⟨s2, u, he.2⟩

/-- A byte outside the base64 alphabet makes the core decoder fail. -/
theorem b64decodeCore_err : ∀ (l : List Nat) (b : Nat), b ∈ l → b64val b = none →
    b64decodeCore l = .error ()
  | [], b, hb, _ => absurd hb (by simp)
  | [_], _, _, _ => rfl
  | [a, c], b, hb, hv => by
    have hb' : b = a ∨ b = c := by simpa using hb
    cases hA : b64val a with
    | none => simp [b64decodeCore, hA]
    | some va =>
      cases hC : b64val c with
      | none => simp [b64decodeCore, hA, hC]
      | some vc =>
        rcases hb' with rfl | rfl
        · rw [hA] at hv; exact Option.noConfusion hv
        · rw [hC] at hv; exact Option.noConfusion hv
  | [a, c, d], b, hb, hv => by
    have hb' : b = a ∨ b = c ∨ b = d := by simpa using hb
    cases hA : b64val a with
    | none => simp [b64decodeCore, hA]
    | some va =>
      cases hC : b64val c with
      | none => simp [b64decodeCore, hA, hC]
      | some vc =>
        cases hD : b64val d with
        | none => simp [b64decodeCore, hA, hC, hD]
        | some vd =>
          rcases hb' with rfl | rfl | rfl
          · rw [hA] at hv; exact Option.noConfusion hv
          · rw [hC] at hv; exact Option.noConfusion hv
          · rw [hD] at hv; exact Option.noConfusion hv
  | a :: c :: d :: e :: rest, b, hb, hv => by
    simp only [List.mem_cons] at hb
    cases hA : b64val a with
    | none => simp [b64decodeCore, hA]
    | some va =>
      cases hC : b64val c with
      | none => simp [b64decodeCore, hA, hC]
      | some vc =>
        cases hD : b64val d with
        | none => simp [b64decodeCore, hA, hC, hD]
        | some vd =>
          cases hE : b64val e with
          | none => simp [b64decodeCore, hA, hC, hD, hE]
          | some ve =>
            have hb' : b ∈ rest := by
              rcases hb with rfl | rfl | rfl | rfl | h
              · rw [hA] at hv; exact Option.noConfusion hv
              · rw [hC] at hv; exact Option.noConfusion hv
              · rw [hD] at hv; exact Option.noConfusion hv
              · rw [hE] at hv; exact Option.noConfusion hv
              · exact h
            have hrec := b64decodeCore_err rest b hb' hv
            simp [b64decodeCore, hA, hC, hD, hE, hrec]

/-- `b64strip` on an empty input. -/
theorem b64strip_eq_nil (l : List Nat) (h : l.reverse = []) : b64strip l = l := by
  unfold b64strip
  rw [h]

/-- `b64strip` when the value ends in two `=` bytes. -/
theorem b64strip_eq_two (l r : List Nat) (h : l.reverse = 61 :: 61 :: r) :
    b64strip l = r.reverse := by
  unfold b64strip
  rw [h]

/-- `b64strip` when the value ends in exactly one `=` byte. -/
theorem b64strip_eq_one (l : List Nat) (y : Nat) (r : List Nat)
    (h : l.reverse = 61 :: y :: r) (hy : y ≠ 61) :
    b64strip l = (y :: r).reverse := by
  unfold b64strip
  rw [h]
  simp [hy]

/-- `b64strip` when the value does not end in `=`. -/
theorem b64strip_eq_none (l : List Nat) (x : Nat) (r : List Nat)
    (h : l.reverse = x :: r) (hx : x ≠ 61) : b64strip l = l := by
  unfold b64strip
  rw [h]
  simp [hx]

/-- Stripping padding can only lose `=` bytes. -/
theorem mem_b64strip_or (l : List Nat) (b : Nat) (hb : b ∈ l) :
    b ∈ b64strip l ∨ b = 61 := by
  by_cases hb61 : b = 61
  · exact Or.inr hb61
  refine Or.inl ?_
  have hbrev : b ∈ l.reverse := List.mem_reverse.mpr hb
  rcases hrev : l.reverse with _ | ⟨x, r1⟩
  · rw [b64strip_eq_nil l hrev]
    exact hb
  · by_cases hx : x = 61
    · subst hx
      cases r1 with
      | nil =>
        rw [hrev] at hbrev
        simp at hbrev
        exact absurd hbrev hb61
      | cons y r2 =>
        rw [hrev] at hbrev
        simp only [List.mem_cons] at hbrev
        by_cases hy : y = 61
        · subst hy
          rw [b64strip_eq_two l r2 hrev, List.mem_reverse]
          rcases hbrev with rfl | rfl | h
          · exact absurd rfl hb61
          · exact absurd rfl hb61
          · exact h
        · rw [b64strip_eq_one l y r2 hrev hy, List.mem_reverse]
          rcases hbrev with rfl | rfl | h
          · exact absurd rfl hb61
          · exact List.mem_cons_self _ _
          · exact List.mem_cons_of_mem _ h
    · rw [b64strip_eq_none l x r1 hrev hx]
      exact hb

/-- A successful decode implies every byte of the input is in the
base64 alphabet (or padding). -/
theorem b64decode_ok_val (l bytes : List Nat) (h : b64decode l = .ok bytes)
    (b : Nat) (hb : b ∈ b64strip l) : b64val b ≠ none := by
  intro hv
  unfold b64decode at h
  rw [b64decodeCore_err (b64strip l) b hb hv] at h
  exact Except.noConfusion h

/-- A successful decode means the input contained no space byte. -/
theorem b64decode_ok_no_space (l bytes : List Nat) (h : b64decode l = .ok bytes) :
    ¬ 32 ∈ l := by
  intro h32
  rcases mem_b64strip_or l 32 h32 with hm | h61
  · exact b64decode_ok_val l bytes h 32 hm (by decide)
  · exact absurd h61 (by decide)

/-- Bytes in the base64 alphabet are visible ASCII. -/
theorem b64val_isSome_bounds (b : Nat) (h : b64val b ≠ none) : 32 ≤ b ∧ b ≤ 126 := by
  by_contra hc
  apply h
  have h1 : ¬(65 ≤ b ∧ b ≤ 90) := by omega
  have h2 : ¬(97 ≤ b ∧ b ≤ 122) := by omega
  have h3 : ¬(48 ≤ b ∧ b ≤ 57) := by omega
  have h4 : ¬(b = 43) := by omega
  have h5 : ¬(b = 47) := by omega
  simp [b64val, h1, h2, h3, h4, h5]

/-- Every byte of a successfully decoded base64 string is visible
ASCII. -/
theorem b64decode_ok_bounds (l bytes : List Nat) (h : b64decode l = .ok bytes)
    (b : Nat) (hb : b ∈ l) : 32 ≤ b ∧ b ≤ 126 := by
  rcases mem_b64strip_or l b hb with hm | rfl
  · exact b64val_isSome_bounds b (b64decode_ok_val l bytes h b hm)
  · omega

/-- Dropping the 6-byte `Basic ` prefix. -/
theorem basic_append_drop (t : List Nat) : (basicBytes ++ t).drop 6 = t := rfl

/-- When `Basic ` occurs at a positive offset, the space of the match
survives the 6-byte slice. -/
theorem mem_drop6_of_inner (s t : List Nat) (hs : s ≠ []) :
    32 ∈ (s ++ basicBytes ++ t).drop 6 := by
  have hsplit : s ++ basicBytes ++ t
      = (s ++ [66, 97, 115, 105, 99]) ++ (32 :: t) := by
    show s ++ ([66, 97, 115, 105, 99] ++ [32]) ++ t = _
    simp
  have hlen : 6 ≤ (s ++ [66, 97, 115, 105, 99]).length := by
    rcases s with _ | ⟨x, s2⟩
    · exact absurd rfl hs
    · simp
  rw [hsplit, List.drop_append_of_le_length hlen]
  exact List.mem_append_right _ (List.mem_cons_self 32 t)

/-- If the header value contains `Basic ` and the slice from byte 6
is valid base64, the occurrence can only be at offset 0: the value
begins with `Basic `. -/
theorem basic_prefix_of_contains (value bytes : List Nat)
    (hc : containsSeq basicBytes value = true)
    (hok : b64decode (value.drop 6) = .ok bytes) :
    value = basicBytes ++ value.drop 6 := by
  rcases (containsSeq_iff basicBytes value).mp hc with ⟨s, t, rfl⟩
  cases s with
  | nil => simp [basic_append_drop]
  | cons x s2 =>
    exact absurd (mem_drop6_of_inner (x :: s2) t (by simp))
      (b64decode_ok_no_space _ bytes hok)

/-- A value of the form `Basic ` + valid base64 passes
`HeaderValue::to_str`. -/
theorem headerVisible_of_basic (rest bytes : List Nat) (hok : b64decode rest = .ok bytes) :
    headerVisible (basicBytes ++ rest) = true := by
  unfold headerVisible
  rw [List.all_append]
  have h1 : basicBytes.all (fun b => 32 ≤ b && b ≤ 126) = true := by decide
  have h2 : rest.all (fun b => 32 ≤ b && b ≤ 126) = true := by
    rw [List.all_eq_true]
    intro b hb
    have hbd := b64decode_ok_bounds rest bytes hok b hb
    simp only [Bool.and_eq_true, decide_eq_true_eq]
    omega
  rw [h1, h2]
  rfl

/-- `auth_guard` with a configured credential, written out. -/
theorem auth_guard_some (args : Args) (req : Request) (auth : List Nat)
    (h : args.auth = some auth) :
    auth_guard args req =
      match req.authHeader with
      | none => .ok false
      | some value =>
        if headerVisible value then
          if containsSeq basicBytes value then
            match b64decode (value.drop 6) with
            | .error _ => .error ()
            | .ok bytes => if validUtf8 bytes then .ok (bytes == auth) else .error ()
          else .ok false
        else .error () := by
  unfold auth_guard
  rw [h]

/-- Structural characterization of a grant with a configured
credential. -/
theorem authorized_some_iff (args : Args) (req : Request) (auth : List Nat)
    (h : args.auth = some auth) :
    authorized args req = true ↔
      ∃ value, req.authHeader = some value ∧ headerVisible value = true ∧
        containsSeq basicBytes value = true ∧
        ∃ bytes, b64decode (value.drop 6) = .ok bytes ∧ validUtf8 bytes = true ∧
          bytes = auth := by
  cases hh : req.authHeader with
  | none => simp [authorized, auth_guard, h, hh]
  | some value =>
    by_cases hvis : headerVisible value = true
    · by_cases hc : containsSeq basicBytes value = true
      · cases hdec : b64decode (value.drop 6) with
        | error e => simp [authorized, auth_guard, h, hh, hvis, hc, hdec]
        | ok bytes =>
          by_cases hutf : validUtf8 bytes = true
          · simp [authorized, auth_guard, h, hh, hvis, hc, hdec, hutf]
            exact fun h' => h' ▸ hutf
          · have hutf' : validUtf8 bytes = false := by
              cases hu : validUtf8 bytes
              · rfl
              · exact absurd hu hutf
            simp [authorized, auth_guard, h, hh, hvis, hc, hdec, hutf']
            exact fun h' => h' ▸ hutf'
      · have hc' : containsSeq basicBytes value = false := by
          cases hcc : containsSeq basicBytes value
          · rfl
          · exact absurd hcc hc
        simp [authorized, auth_guard, h, hh, hvis, hc']
    · have hvis' : headerVisible value = false := by
        cases hvv : headerVisible value
        · rfl
        · exact absurd hvv hvis
      simp [authorized, auth_guard, h, hh, hvis']

/-- Claim C2: with a configured credential, a request is authorized
iff its `Authorization` header value is exactly `Basic ` followed by a
base64 string decoding to UTF-8 bytes equal to the credential — the
code tests `contains("Basic ")` rather than a prefix, but a match at
any positive offset would leave the space byte inside the slice that
must then decode as base64, which rejects it, so only offset 0 can
succeed — and every request that is not authorized is answered 401
with the `WWW-Authenticate: Basic` header. -/
theorem c2_basic_auth (args : Args) (fs : Fs) (req : Request) (auth : List Nat)
    (hauth : args.auth = some auth) :
    (authorized args req = true ↔
      ∃ rest bytes, req.authHeader = some (basicBytes ++ rest)
        ∧ b64decode rest = .ok bytes ∧ validUtf8 bytes = true ∧ bytes = auth)
    ∧ (authorized args req = false → call args fs req = (.unauthorized, fs))
    ∧ statusOf .unauthorized = 401
    ∧ headersOf .unauthorized = [("WWW-Authenticate", "Basic")] := by
  refine ⟨?_, fun hf => ?_, rfl, rfl⟩
  · rw [authorized_some_iff args req auth hauth]
    constructor
    · rintro ⟨value, hh, hvis, hc, bytes, hdec, hutf, rfl⟩
      refine ⟨value.drop 6, bytes, ?_, hdec, hutf, rfl⟩
      rw [hh]
      exact congrArg some (basic_prefix_of_contains value bytes hc hdec)
    · rintro ⟨rest, bytes, hh, hdec, hutf, rfl⟩
      have hdrop : (basicBytes ++ rest).drop 6 = rest := basic_append_drop rest
      refine ⟨basicBytes ++ rest, hh, headerVisible_of_basic rest bytes hdec, ?_,
        bytes, by rw [hdrop]; exact hdec, hutf, rfl⟩
      exact (containsSeq_iff basicBytes (basicBytes ++ rest)).mpr ⟨[], rest, by simp⟩
  · simp [call, handle, hf]

/-- Claim C2 (witness): the canonical header `Basic YWxpY2U6c2VjcmV0`
is granted against credential `alice:secret`, and a request with no
header is answered 401 with `WWW-Authenticate: Basic`. -/
theorem c2_witness :
    authorized ⟨srvRoot, false, some aliceSecret⟩
      ⟨Method.get, [47], [], some (basicBytes ++ b64Alice), []⟩ = true
    ∧ call ⟨srvRoot, false, some aliceSecret⟩ []
        ⟨Method.get, [47], [], none, []⟩ = (.unauthorized, []) :=
  ⟨(c2_basic_auth ⟨srvRoot, false, some aliceSecret⟩ []
      ⟨Method.get, [47], [], some (basicBytes ++ b64Alice), []⟩ aliceSecret rfl).1.mpr
      ⟨b64Alice, aliceSecret, rfl, by decide, by decide, rfl⟩,
    (c2_basic_auth ⟨srvRoot, false, some aliceSecret⟩ []
      ⟨Method.get, [47], [], none, []⟩ aliceSecret rfl).2.1 rfl⟩

/-- Claim C10 (witness): with root `/`, `PUT /` resolves to `/` which
has no parent → 403 and nothing written; with root `/srv` and a file
at `/srv/p`, `PUT /p/x` has the non-directory parent `/srv/p` → 403
and nothing written. -/
theorem c10_witness :
    call ⟨[47], false, none⟩ [] ⟨Method.put, [47], [], none, [7]⟩ = (.code 403, [])
    ∧ call ⟨srvRoot, false, none⟩
        [([47, 115, 114, 118, 47, 112], FsNode.file [0] none)]
        ⟨Method.put, [47, 112, 47, 120], [], none, [7]⟩
      = (.code 403, [([47, 115, 114, 118, 47, 112], FsNode.file [0] none)]) :=
  ⟨(c10_put_bad_parent ⟨[47], false, none⟩ [] ⟨Method.put, [47], [], none, [7]⟩
      [47] rfl rfl rfl (by decide)).1 (by decide),
    (c10_put_bad_parent ⟨srvRoot, false, none⟩
      [([47, 115, 114, 118, 47, 112], FsNode.file [0] none)]
      ⟨Method.put, [47, 112, 47, 120], [], none, [7]⟩
      [47, 115, 114, 118, 47, 112, 47, 120] rfl rfl rfl (by decide)).2
      [47, 115, 114, 118, 47, 112] ⟨false, true, 1, none⟩
      (by decide) (by decide) rfl⟩

/-- The ZIP producer's entries, characterized: exactly the regular
(non-symlink) files of the walk whose relative path is valid UTF-8,
each named by that relative path and DEFLATE-compressed. -/
theorem dirZipLoop_mem (dir : List Nat) :
    ∀ (l : List (List Nat × FsNode)) (e : ZipEntry),
      e ∈ dirZipLoop dir l ↔
        ∃ p c m, (p, FsNode.file c m) ∈ l ∧ validUtf8 (stripBase dir p) = true ∧
          e = ⟨stripBase dir p, Compression.deflate, c⟩
  | [], e => by simp [dirZipLoop]
  | (p0, node) :: rest, e => by
    have IH := dirZipLoop_mem dir rest e
    cases node with
    | file c0 m0 =>
      by_cases hu : validUtf8 (stripBase dir p0) = true
      · simp only [dirZipLoop, nodeSMeta, nodeIsFileNoFollow, hu, if_true, List.mem_cons, IH]
        constructor
        · rintro (rfl | ⟨p, c, m, hmem, hu2, rfl⟩)
          · exact ⟨p0, c0, m0, Or.inl rfl, hu, rfl⟩
          · exact ⟨p, c, m, Or.inr hmem, hu2, rfl⟩
        · rintro ⟨p, c, m, hmem, hu2, rfl⟩
          rcases hmem with heq | hmem2
          · obtain ⟨rfl, heq2⟩ := Prod.mk.injEq .. ▸ heq
            obtain ⟨rfl, rfl⟩ := FsNode.file.injEq .. ▸ heq2
            exact Or.inl rfl
          · exact Or.inr ⟨p, c, m, hmem2, hu2, rfl⟩
      · have hu' : validUtf8 (stripBase dir p0) = false := by
          cases h2 : validUtf8 (stripBase dir p0)
          · rfl
          · exact absurd h2 hu
        simp only [dirZipLoop, nodeSMeta, nodeIsFileNoFollow, hu', List.mem_cons, IH,
          Bool.false_eq_true, if_false, if_true]
        constructor
        · rintro ⟨p, c, m, hmem, hu2, rfl⟩
          exact ⟨p, c, m, Or.inr hmem, hu2, rfl⟩
        · rintro ⟨p, c, m, hmem, hu2, rfl⟩
          rcases hmem with heq | hmem2
          · obtain ⟨rfl, heq2⟩ := Prod.mk.injEq .. ▸ heq
            exact absurd hu2 (by rw [hu']; exact Bool.noConfusion)
          · exact ⟨p, c, m, hmem2, hu2, rfl⟩
    | dir m0 =>
      simp only [dirZipLoop, nodeSMeta, nodeIsFileNoFollow, Bool.false_eq_true, if_false,
        List.mem_cons, IH]
      constructor
      · rintro ⟨p, c, m, hmem, hu2, rfl⟩
        exact ⟨p, c, m, Or.inr hmem, hu2, rfl⟩
      · rintro ⟨p, c, m, hmem, hu2, rfl⟩
        rcases hmem with heq | hmem2
        · exact absurd (congrArg Prod.snd heq) (by simp)
        · exact ⟨p, c, m, hmem2, hu2, rfl⟩
    | symlinkFile c0 m0 =>
      simp only [dirZipLoop, nodeSMeta, nodeIsFileNoFollow, Bool.false_eq_true, if_false,
        List.mem_cons, IH]
      constructor
      · rintro ⟨p, c, m, hmem, hu2, rfl⟩
        exact ⟨p, c, m, Or.inr hmem, hu2, rfl⟩
      · rintro ⟨p, c, m, hmem, hu2, rfl⟩
        rcases hmem with heq | hmem2
        · exact absurd (congrArg Prod.snd heq) (by simp)
        · exact ⟨p, c, m, hmem2, hu2, rfl⟩
    | symlinkDir m0 =>
      simp only [dirZipLoop, nodeSMeta, nodeIsFileNoFollow, Bool.false_eq_true, if_false,
        List.mem_cons, IH]
      constructor
      · rintro ⟨p, c, m, hmem, hu2, rfl⟩
        exact ⟨p, c, m, Or.inr hmem, hu2, rfl⟩
      · rintro ⟨p, c, m, hmem, hu2, rfl⟩
        rcases hmem with heq | hmem2
        · exact absurd (congrArg Prod.snd heq) (by simp)
        · exact ⟨p, c, m, hmem2, hu2, rfl⟩
    | brokenSymlink =>
      simp only [dirZipLoop, nodeSMeta, nodeIsFileNoFollow, Bool.false_eq_true, if_false,
        List.mem_cons, IH]
      constructor
      · rintro ⟨p, c, m, hmem, hu2, rfl⟩
        exact ⟨p, c, m, Or.inr hmem, hu2, rfl⟩
      · rintro ⟨p, c, m, hmem, hu2, rfl⟩
        rcases hmem with heq | hmem2
        · exact absurd (congrArg Prod.snd heq) (by simp)
        · exact ⟨p, c, m, hmem2, hu2, rfl⟩
    | unreadable =>
      simp only [dirZipLoop, nodeSMeta, List.mem_cons, IH]
      constructor
      · rintro ⟨p, c, m, hmem, hu2, rfl⟩
        exact ⟨p, c, m, Or.inr hmem, hu2, rfl⟩
      · rintro ⟨p, c, m, hmem, hu2, rfl⟩
        rcases hmem with heq | hmem2
        · exact absurd (congrArg Prod.snd heq) (by simp)
        · exact ⟨p, c, m, hmem2, hu2, rfl⟩

/-- Claim C5 (counterexample).  The claim promises a ZIP entry for
*every* regular non-symlink file of the subtree; a regular file whose
name is not valid UTF-8 is silently skipped (`to_str` fails), so the
archive of a directory holding exactly one such file is empty. -/
theorem c5_counterexample :
    (zBadFile, FsNode.file [65] none) ∈ walkDir zFs zDir
    ∧ nodeIsFileNoFollow (FsNode.file [65] none) = true
    ∧ dirZipLoop zDir (walkDir zFs zDir) = []
    ∧ handle_send_dir_zip zFs zDir = .zip [] := by decide

/-- Claim C5 (amended): GET on an existing directory with query
exactly `zip` streams the archive produced by `dir_zip`, whose entries
are exactly the regular (non-symlink) files of the subtree *whose
relative path is valid UTF-8* — directories, symlinks, entries with
unreadable metadata and non-UTF-8-named files are omitted — each named
by its POSIX relative path and compressed with DEFLATE. -/
theorem c5_amended (args : Args) (fs : Fs) (req : Request) (path : List Nat)
    (hauth : authorized args req = true) (hm : req.method = Method.get)
    (hres : get_file_path args.path req.uriPath = .ok (some path))
    (hmeta : ∃ meta, fsMetadata fs path = some meta ∧ meta.isDir = true)
    (hq : req.query = zipBytes) :
    call args fs req = (.zip (dirZipLoop path (walkDir fs path)), fs)
    ∧ (∀ e, e ∈ dirZipLoop path (walkDir fs path) ↔
        ∃ p c m, (p, FsNode.file c m) ∈ walkDir fs path ∧
          validUtf8 (stripBase path p) = true ∧
          e = ⟨stripBase path p, Compression.deflate, c⟩) := by
  obtain ⟨meta, hmet, hdir⟩ := hmeta
  refine ⟨?_, fun e => dirZipLoop_mem path (walkDir fs path) e⟩
  simp [call, handle, hauth, hm, handle_static, hres, hmet, hdir, hq, handle_send_dir_zip]

/-- Claim C5 (amended, witness): zipping `/srv/d` containing the single
regular file `/srv/d/x` with bytes `A` yields exactly the DEFLATE entry
named `x`. -/
theorem c5_witness :
    call ⟨srvRoot, false, none⟩ qwFs ⟨Method.get, [47, 100], zipBytes, none, []⟩
      = (.zip (dirZipLoop zDir (walkDir qwFs zDir)), qwFs)
    ∧ (⟨[120], Compression.deflate, [65]⟩ : ZipEntry) ∈ dirZipLoop zDir (walkDir qwFs zDir) :=
  ⟨(c5_amended ⟨srvRoot, false, none⟩ qwFs ⟨Method.get, [47, 100], zipBytes, none, []⟩
      zDir rfl rfl (by decide) ⟨⟨true, false, 0, none⟩, by decide, rfl⟩ rfl).1,
    ((c5_amended ⟨srvRoot, false, none⟩ qwFs ⟨Method.get, [47, 100], zipBytes, none, []⟩
      zDir rfl rfl (by decide) ⟨⟨true, false, 0, none⟩, by decide, rfl⟩ rfl).2
      ⟨[120], Compression.deflate, [65]⟩).mpr
      ⟨qBroken, [65], some 5, by decide, by decide, by decide⟩⟩

/-- `str::strip_prefix` of a literal prefix succeeds on an exact
extension. -/
theorem dropPre_append (p t : List Nat) : dropPre p (p ++ t) = some t := by
  unfold dropPre
  rw [if_pos ((isPrefixB_iff p (p ++ t)).mpr ⟨t, rfl⟩), List.drop_left]

/-- Search-result membership, characterized: an item is listed exactly
when some walked entry matches the query on its lowercased basename,
has readable symlink-metadata, and yields a Path Entry. -/
theorem handle_query_dir_mem (args : Args) (fs : Fs) (p q : List Nat) (item : PathItem) :
    item ∈ responsePaths (handle_query_dir args fs p q) ↔
      ∃ ep node, (ep, node) ∈ walkDir fs p ∧
        containsSeq (lowerBytes q) (lowerBytes (basenameBytes ep)) = true ∧
        (nodeSMeta node).isSome = true ∧
        get_path_item ep p node = some item := by
  simp only [handle_query_dir, send_index, responsePaths, sortPaths,
    List.mem_mergeSort, List.mem_filterMap]
  constructor
  · rintro ⟨⟨ep, node⟩, hmem, hf⟩
    dsimp only at hf
    by_cases hcont : containsSeq (lowerBytes q) (lowerBytes (basenameBytes ep)) = true
    · rw [hcont] at hf
      simp only [Bool.not_true, Bool.false_eq_true, if_false] at hf
      by_cases hsm : (nodeSMeta node).isNone = true
      · rw [if_pos hsm] at hf
        exact absurd hf (by simp)
      · rw [if_neg hsm] at hf
        have hsome : (nodeSMeta node).isSome = true := by
          cases hns : nodeSMeta node
          · rw [hns] at hsm
            exact absurd rfl hsm
          · rfl
        exact ⟨ep, node, hmem, hcont, hsome, hf⟩
    · have hcont' : containsSeq (lowerBytes q) (lowerBytes (basenameBytes ep)) = false := by
        cases hcc : containsSeq (lowerBytes q) (lowerBytes (basenameBytes ep))
        · rfl
        · exact absurd hcc hcont
      rw [hcont'] at hf
      simp only [Bool.not_false, if_true] at hf
      exact absurd hf (by simp)
  · rintro ⟨ep, node, hmem, hcont, hsome, hitem⟩
    refine ⟨(ep, node), hmem, ?_⟩
    dsimp only
    rw [hcont]
    have hsm : (nodeSMeta node).isNone = false := by
      cases hns : nodeSMeta node
      · rw [hns] at hsome
        exact absurd hsome (by simp)
      · rfl
    simp only [Bool.not_true, Bool.false_eq_true, if_false]
    rw [if_neg (by rw [hsm]; exact Bool.noConfusion)]
    exact hitem

/-- Claim C6 (counterexample).  The claim includes an entry whenever
its lowercased basename contains the lowercased query and its
symlink-metadata is readable.  A broken symlink whose basename matches
has readable symlink-metadata, yet it is skipped because the
*followed* `fs::metadata` inside `get_path_item` fails, so the search
result is empty. -/
theorem c6_counterexample :
    (qBroken, FsNode.brokenSymlink) ∈ walkDir qFs zDir
    ∧ containsSeq (lowerBytes [120]) (lowerBytes (basenameBytes qBroken)) = true
    ∧ (nodeSMeta FsNode.brokenSymlink).isSome = true
    ∧ responsePaths (handle_query_dir ⟨srvRoot, false, none⟩ qFs zDir [120]) = [] := by
  refine ⟨by decide, by decide, rfl, ?_⟩
  rw [List.eq_nil_iff_forall_not_mem]
  intro item
  rw [handle_query_dir_mem]
  rintro ⟨ep, node, hmem, hcont, hsome, hitem⟩
  have hw : walkDir qFs zDir = [(qBroken, FsNode.brokenSymlink)] := by decide
  rw [hw] at hmem
  have hpair : (ep, node) = (qBroken, FsNode.brokenSymlink) := by simpa using hmem
  obtain ⟨rfl, rfl⟩ := Prod.mk.injEq .. ▸ hpair
  have hnone : get_path_item qBroken zDir FsNode.brokenSymlink = none := rfl
  rw [hnone] at hitem
  exact Option.noConfusion hitem

/-- Claim C6 (amended): GET on an existing directory with query
`q=<text>` routes to the search walker, and an item appears in the
response exactly when some walked entry has a lowercased basename
containing the lowercased query, readable symlink-metadata, *and* a
successful Path-Entry construction (which also requires the followed
metadata to be readable — broken symlinks are skipped too). -/
theorem c6_amended :
    (∀ (args : Args) (fs : Fs) (req : Request) (path qtext : List Nat),
      authorized args req = true → req.method = Method.get →
      get_file_path args.path req.uriPath = .ok (some path) →
      (∃ meta, fsMetadata fs path = some meta ∧ meta.isDir = true) →
      req.query = qEqBytes ++ qtext →
      call args fs req = (handle_query_dir args fs path qtext, fs))
    ∧ (∀ (args : Args) (fs : Fs) (p q : List Nat) (item : PathItem),
        item ∈ responsePaths (handle_query_dir args fs p q) ↔
          ∃ ep node, (ep, node) ∈ walkDir fs p ∧
            containsSeq (lowerBytes q) (lowerBytes (basenameBytes ep)) = true ∧
            (nodeSMeta node).isSome = true ∧
            get_path_item ep p node = some item) := by
  constructor
  · intro args fs req path qtext hauth hm hres hmeta hq
    obtain ⟨meta, hmet, hdir⟩ := hmeta
    have hnz : ¬(req.query = zipBytes) := by
      rw [hq]
      intro hcontra
      simp [qEqBytes, zipBytes] at hcontra
    have hdp : dropPre qEqBytes req.query = some qtext := by
      rw [hq]
      exact dropPre_append qEqBytes qtext
    simp [call, handle, hauth, hm, handle_static, hres, hmet, hdir, hdp]
    rw [if_neg hnz]
  · exact handle_query_dir_mem

/-- Claim C6 (amended, witness): searching `/srv/d` for `x` with a
regular file `/srv/d/x` present routes to the walker and lists exactly
that file. -/
theorem c6_witness :
    call ⟨srvRoot, false, none⟩ qwFs ⟨Method.get, [47, 100], [113, 61, 120], none, []⟩
      = (handle_query_dir ⟨srvRoot, false, none⟩ qwFs zDir [120], qwFs)
    ∧ (⟨PathType.File, [120], some 5, some 1⟩ : PathItem)
        ∈ responsePaths (handle_query_dir ⟨srvRoot, false, none⟩ qwFs zDir [120]) :=
  ⟨c6_amended.1 ⟨srvRoot, false, none⟩ qwFs
      ⟨Method.get, [47, 100], [113, 61, 120], none, []⟩ zDir [120] rfl rfl (by decide)
      ⟨⟨true, false, 0, none⟩, by decide, rfl⟩ rfl,
    (c6_amended.2 ⟨srvRoot, false, none⟩ qwFs zDir [120]
      ⟨PathType.File, [120], some 5, some 1⟩).mpr
      ⟨qBroken, FsNode.file [65] (some 5), by decide, by decide, rfl, by decide⟩⟩

end Dufs
